import Mathlib

/-!
A shallow embedding of the data-access and service layer of the Go CRUD
backend (users and church members).  Timestamps are modelled as `Int`
(the zero value of `time.Time` is `0`); strings are Lean `String`s; the
database stores are lists of rows.  Service and repository functions are
translated from `internal/service/*.go`, `internal/repository/*.go` and
`pkg/db/uow.go`; each function additionally returns the list of
repository operations it issued, so that claims about which queries are
performed (and in which order) can be stated.
-/

namespace LearnGolang

/-- Instants of `time.Time`, modelled as integers; `0` is the zero value
(`IsZero`), and `a.After b` is `b < a`. -/
abbrev Time := Int

/-- `model.ChurchMember` from `internal/model/church_member.go`. -/
@[ext]
structure ChurchMember where
  id : Int
  name : String
  email : String
  phone : String
  address : String
  biography : String
  joinedAt : Time
  createdAt : Time
  updatedAt : Time
  deriving DecidableEq, Repr

/-- `model.User` from `internal/model/user.go`. -/
@[ext]
structure User where
  id : Int
  name : String
  email : String
  createdAt : Time
  deriving DecidableEq, Repr

/-! ## Go string primitives

`strings.TrimSpace` trims the Unicode white-space characters at both
ends; `len` on a Go string is its UTF-8 byte length. -/

/-- `unicode.IsSpace` (the Unicode White_Space property, as used by
`strings.TrimSpace`). -/
def goIsSpace (c : Char) : Bool :=
  c = ' ' || c = '\t' || c = '\n' || c = '\u000B' || c = '\u000C' || c = '\r' ||
  c = '\u0085' || c = '\u00A0' || c = '\u1680' ||
  ('\u2000' ≤ c && c ≤ '\u200A') || c = '\u2028' || c = '\u2029' ||
  c = '\u202F' || c = '\u205F' || c = '\u3000'

/-- `strings.TrimSpace`. -/
def goTrim (s : String) : String :=
  ⟨((s.toList.dropWhile goIsSpace).reverse.dropWhile goIsSpace).reverse⟩

/-- Go `len` on a string: its UTF-8 byte length. -/
def goLen (s : String) : Nat :=
  s.toList.foldl (fun n c => n + c.utf8Size) 0

/-! ## The email pattern

`isValidEmail` in `church_member_service.go` matches the anchored regex
`^[a-zA-Z0-9._%+-]+@[a-zA-Z0-9.-]+\.[a-zA-Z]{2,}$`.  Neither character
class contains `@`, so a match splits the string at its first `@`; the
final `[a-zA-Z]{2,}` contains no dot, so the mandatory `\.` of a match
is the last dot of the domain part.  The matcher below implements the
regex through those two deterministic splits; the characterization
lemma `isValidEmail_iff_decomp` recovers the regex's existential match
semantics. -/

/-- The local-part character class `[a-zA-Z0-9._%+-]`. -/
def isLocalChar (c : Char) : Bool :=
  c.isAlpha || c.isDigit || c = '.' || c = '_' || c = '%' || c = '+' || c = '-'

/-- The domain character class `[a-zA-Z0-9.-]`. -/
def isDomainChar (c : Char) : Bool :=
  c.isAlpha || c.isDigit || c = '.' || c = '-'

/-- Split a character list at the first occurrence of `sep`. -/
def splitFirstAt (sep : Char) : List Char → Option (List Char × List Char)
  | [] => none
  | c :: cs =>
    if c = sep then some ([], cs)
    else
      match splitFirstAt sep cs with
      | some (a, b) => some (c :: a, b)
      | none => none

/-- Split a character list at the last occurrence of `'.'`. -/
def lastDotSplit : List Char → Option (List Char × List Char)
  | [] => none
  | c :: cs =>
    match lastDotSplit cs with
    | some (d, t) => some (c :: d, t)
    | none => if c = '.' then some ([], cs) else none

/-- The `[a-zA-Z0-9._%+-]+` part of the pattern. -/
def emailLocalOK (l : List Char) : Bool :=
  !l.isEmpty && l.all isLocalChar

/-- The `[a-zA-Z0-9.-]+\.[a-zA-Z]{2,}$` part of the pattern, applied to
the split of the domain at its last dot. -/
def emailDomainTail : Option (List Char × List Char) → Bool
  | none => false
  | some (d, t) =>
    !d.isEmpty && d.all isDomainChar && decide (2 ≤ t.length) && t.all Char.isAlpha

/-- The whole pattern, applied to the split of the string at its first `@`. -/
def emailSplit : Option (List Char × List Char) → Bool
  | none => false
  | some (l, r) => emailLocalOK l && emailDomainTail (lastDotSplit r)

/-- `isValidEmail` from `church_member_service.go`: whole-string match of
`^[a-zA-Z0-9._%+-]+@[a-zA-Z0-9.-]+\.[a-zA-Z]{2,}$`. -/
def isValidEmail (email : String) : Bool :=
  emailSplit (splitFirstAt '@' email.toList)

/-! ## ChurchMember validation (`validateMember`) -/

/-- `validateMember` from `church_member_service.go`; `some msg` is the
returned validation error, `none` means the member is accepted. -/
def validateMember (m : ChurchMember) : Option String :=
  if goTrim m.name = "" then some "name is required"
  else if goLen (goTrim m.name) < 2 ∨ goLen (goTrim m.name) > 255 then
    some "name must be between 2 and 255 characters"
  else if goTrim m.email = "" then some "email is required"
  else if isValidEmail (goTrim m.email) = false then some "invalid email format"
  else if m.phone ≠ "" ∧ goLen m.phone > 20 then
    some "phone must not exceed 20 characters"
  else if goLen m.address > 500 then some "address must not exceed 500 characters"
  else if goLen m.biography > 5000 then some "biography must not exceed 5000 characters"
  else none

/-! ## Repository layer (`ChurchMemberRepository`, `UserRepository`)

The store is the list of table rows.  Each repository operation is the
row-level semantics of the SQL statement it runs (the statements in
`church_member_repository.go` / `user_repository.go`); the generated
`id` of an insert and the repository's `time.Now()` are passed in as
parameters. -/

/-- One operation issued against the church-members repository. -/
inductive MemberRepoOp
  | getByEmail (email : String)
  | getByID (id : Int)
  | create (m : ChurchMember)
  | update (m : ChurchMember)
  | delete (id : Int)
  | listByRange (startDate endDate : Time)
  deriving DecidableEq, Repr

/-- One operation issued against the users repository. -/
inductive UserRepoOp
  | getByID (id : Int)
  | create (u : User)
  | update (u : User)
  | delete (id : Int)
  | list
  deriving DecidableEq, Repr

/-- `ChurchMemberRepository.GetByEmail`: `SELECT ... WHERE email = $1`
(at most one row matches, `email` being unique). -/
def repoGetByEmail (st : List ChurchMember) (email : String) : Option ChurchMember :=
  st.find? (fun r => r.email = email)

/-- `ChurchMemberRepository.GetByID`: `SELECT ... WHERE id = $1`. -/
def repoGetByID (st : List ChurchMember) (id : Int) : Option ChurchMember :=
  st.find? (fun r => r.id = id)

/-- `ChurchMemberRepository.Create`: `INSERT INTO church_members (name,
email, phone, address, biography, joined_at, created_at, updated_at)
VALUES (...) RETURNING id`; `created_at` and `updated_at` are the
repository's `now`, `id` is storage-assigned. -/
def repoCreate (st : List ChurchMember) (newId : Int) (now : Time)
    (m : ChurchMember) : Int × List ChurchMember :=
  (newId, st ++ [{ m with id := newId, createdAt := now, updatedAt := now }])

/-- `ChurchMemberRepository.Update`: `UPDATE church_members SET name=$1,
email=$2, phone=$3, address=$4, biography=$5, updated_at=$6 WHERE id=$7`. -/
def repoUpdate (st : List ChurchMember) (now : Time) (m : ChurchMember) :
    List ChurchMember :=
  st.map (fun r =>
    if r.id = m.id then
      { r with name := m.name, email := m.email, phone := m.phone,
               address := m.address, biography := m.biography, updatedAt := now }
    else r)

/-- `ChurchMemberRepository.Delete`: `DELETE FROM church_members WHERE id=$1`
(deleting no rows is not an error). -/
def repoDelete (st : List ChurchMember) (id : Int) : List ChurchMember :=
  st.filter (fun r => r.id ≠ id)

/-- Descending `joined_at` order used by `ORDER BY joined_at DESC`. -/
def joinedDesc (a b : ChurchMember) : Prop := b.joinedAt ≤ a.joinedAt

instance : DecidableRel joinedDesc := fun _ _ => inferInstanceAs (Decidable (_ ≤ _))

instance : IsTotal ChurchMember joinedDesc :=
  ⟨fun a b => (le_total b.joinedAt a.joinedAt).imp id id⟩

instance : IsTrans ChurchMember joinedDesc :=
  ⟨fun _ _ _ hab hbc => le_trans hbc hab⟩

/-- `ChurchMemberRepository.ListByJoinedDateRange`: `SELECT ... WHERE
joined_at >= $1 AND joined_at <= $2 ORDER BY joined_at DESC`. -/
def repoListByRange (st : List ChurchMember) (startDate endDate : Time) :
    List ChurchMember :=
  List.insertionSort joinedDesc
    (st.filter (fun r => startDate ≤ r.joinedAt && r.joinedAt ≤ endDate))

/-- `UserRepository.Create`: `INSERT INTO users (name, email, created_at)
VALUES ($1, $2, $3) RETURNING id` with `created_at` the repository's
`now`. -/
def userRepoCreate (st : List User) (newId : Int) (now : Time) (u : User) :
    Int × List User :=
  (newId, st ++ [{ u with id := newId, createdAt := now }])

/-- `UserRepository.GetByID`: `SELECT ... WHERE id = $1`. -/
def userRepoGetByID (st : List User) (id : Int) : Option User :=
  st.find? (fun r => r.id = id)

/-- `UserRepository.Update`: `UPDATE users SET name=$1, email=$2 WHERE id=$3`. -/
def userRepoUpdate (st : List User) (u : User) : List User :=
  st.map (fun r => if r.id = u.id then { r with name := u.name, email := u.email } else r)

/-- `UserRepository.Delete`: `DELETE FROM users WHERE id=$1`. -/
def userRepoDelete (st : List User) (id : Int) : List User :=
  st.filter (fun r => r.id ≠ id)

/-! ## Single-row error normalization (`ScanRow` consumers)

`GetByID`/`GetByEmail` run a single-row scan whose outcome is either a
row, `sql.ErrNoRows`, or another database error; the Go code maps
`sql.ErrNoRows` to `(nil, nil)` and propagates everything else.  The
functions below are those error-mapping tails, one per Go function. -/

/-- A database error: `sql.ErrNoRows` or anything else. -/
inductive SqlError
  | noRows
  | other (msg : String)
  deriving DecidableEq, Repr

/-- The result mapping of `ChurchMemberRepository.GetByID`. -/
def memberGetByIDResult (res : Except SqlError ChurchMember) :
    Except SqlError (Option ChurchMember) :=
  match res with
  | .ok m => .ok (some m)
  | .error .noRows => .ok none
  | .error e => .error e

/-- The result mapping of `ChurchMemberRepository.GetByEmail`. -/
def memberGetByEmailResult (res : Except SqlError ChurchMember) :
    Except SqlError (Option ChurchMember) :=
  match res with
  | .ok m => .ok (some m)
  | .error .noRows => .ok none
  | .error e => .error e

/-- The result mapping of `UserRepository.GetByID`. -/
def userGetByIDResult (res : Except SqlError User) :
    Except SqlError (Option User) :=
  match res with
  | .ok u => .ok (some u)
  | .error .noRows => .ok none
  | .error e => .error e

/-! ## Service layer (`ChurchMemberService`, `UserService`)

Each service call returns its result, the store after the call, and the
trace of repository operations it issued, in order. -/

/-- `ChurchMemberService.CreateMember`.  `svcNow` is the service's
`time.Now()` (used for the `joinedAt` default), `repoNow` the
repository's (used for `createdAt`/`updatedAt`), `newId` the
storage-assigned id. -/
def createMember (st : List ChurchMember) (svcNow repoNow : Time) (newId : Int)
    (m : ChurchMember) : Except String Int × List ChurchMember × List MemberRepoOp :=
  match validateMember m with
  | some e => (.error e, st, [])
  | none =>
    match repoGetByEmail st m.email with
    | some _ => (.error "email already exists", st, [.getByEmail m.email])
    | none =>
      let m1 := if m.joinedAt = 0 then { m with joinedAt := svcNow } else m
      let (id, st') := repoCreate st newId repoNow m1
      (.ok id, st', [.getByEmail m.email, .create m1])

/-- `ChurchMemberService.GetMember`. -/
def getMember (st : List ChurchMember) (id : Int) :
    Except String (Option ChurchMember) × List MemberRepoOp :=
  if id ≤ 0 then (.error "invalid member id", [])
  else (.ok (repoGetByID st id), [.getByID id])

/-- `ChurchMemberService.UpdateMember`. -/
def updateMember (st : List ChurchMember) (now : Time) (m : ChurchMember) :
    Except String Unit × List ChurchMember × List MemberRepoOp :=
  if m.id ≤ 0 then (.error "invalid member id", st, [])
  else
    match validateMember m with
    | some e => (.error e, st, [])
    | none =>
      match repoGetByID st m.id with
      | none => (.error "member not found", st, [.getByID m.id])
      | some existing =>
        if m.email ≠ existing.email then
          match repoGetByEmail st m.email with
          | some _ =>
            (.error "email already exists", st, [.getByID m.id, .getByEmail m.email])
          | none =>
            (.ok (), repoUpdate st now m,
             [.getByID m.id, .getByEmail m.email, .update m])
        else (.ok (), repoUpdate st now m, [.getByID m.id, .update m])

/-- `ChurchMemberService.DeleteMember`. -/
def deleteMember (st : List ChurchMember) (id : Int) :
    Except String Unit × List ChurchMember × List MemberRepoOp :=
  if id ≤ 0 then (.error "invalid member id", st, [])
  else (.ok (), repoDelete st id, [.delete id])

/-- `ChurchMemberService.ListMembersByJoinedDate`; fails when
`startDate.After(endDate)`, i.e. `endDate < startDate`. -/
def listMembersByJoinedDate (st : List ChurchMember) (startDate endDate : Time) :
    Except String (List ChurchMember) × List MemberRepoOp :=
  if endDate < startDate then (.error "start date must be before end date", [])
  else (.ok (repoListByRange st startDate endDate), [.listByRange startDate endDate])

/-- `UserService.CreateUser`: delegates straight to the repository
(no validation, no uniqueness lookup). -/
def createUser (st : List User) (repoNow : Time) (newId : Int) (u : User) :
    Except String Int × List User × List UserRepoOp :=
  let (id, st') := userRepoCreate st newId repoNow u
  (.ok id, st', [.create u])

/-- `UserService.DeleteUser`: delegates straight to the repository
(no id check). -/
def deleteUser (st : List User) (id : Int) :
    Except String Unit × List User × List UserRepoOp :=
  (.ok (), userRepoDelete st id, [.delete id])

/-! ## Unit of work (`pkg/db/uow.go`)

`UnitOfWorkImpl` holds a nullable transaction handle; `Begin` stores a
fresh handle, `Commit`/`Rollback` return `nil` when the handle is `nil`
and otherwise delegate to the handle — without ever clearing it.
Handles are modelled as `Nat` tags, delegations as emitted `TxEvent`s,
and the delegated call's return value (`tx.Commit()` / `tx.Rollback()`)
as a parameter `txRes`, since it comes from the database driver. -/

/-- The `UnitOfWorkImpl` state: the stored `tx` field (`none` = Go `nil`). -/
structure UnitOfWorkImpl where
  tx : Option Nat
  deriving DecidableEq, Repr

/-- A call delegated to the underlying `*sql.Tx`. -/
inductive TxEvent
  | beginTx (h : Nat)
  | commit (h : Nat)
  | rollback (h : Nat)
  deriving DecidableEq, Repr

/-- `NewUnitOfWork`: the `tx` field starts out `nil`. -/
def newUnitOfWork : UnitOfWorkImpl := { tx := none }

/-- `UnitOfWorkImpl.Begin` (successful `BeginTx` yielding handle `h`):
stores the new handle, unconditionally overwriting `tx`. -/
def uowBegin (_uow : UnitOfWorkImpl) (h : Nat) :
    Option String × UnitOfWorkImpl × List TxEvent :=
  (none, { tx := some h }, [.beginTx h])

/-- `UnitOfWorkImpl.Commit`: `nil` if no transaction handle, else the
result of `tx.Commit()`; the handle is not cleared. -/
def uowCommit (uow : UnitOfWorkImpl) (txRes : Option String) :
    Option String × UnitOfWorkImpl × List TxEvent :=
  match uow.tx with
  | none => (none, uow, [])
  | some h => (txRes, uow, [.commit h])

/-- `UnitOfWorkImpl.Rollback`: `nil` if no transaction handle, else the
result of `tx.Rollback()`; the handle is not cleared. -/
def uowRollback (uow : UnitOfWorkImpl) (txRes : Option String) :
    Option String × UnitOfWorkImpl × List TxEvent :=
  match uow.tx with
  | none => (none, uow, [])
  | some h => (txRes, uow, [.rollback h])

/-- `UnitOfWorkImpl.Tx`. -/
def uowTx (uow : UnitOfWorkImpl) : Option Nat := uow.tx

/-! ## Lemmas: split correctness and the regex characterization -/

theorem splitFirstAt_some {sep : Char} :
    ∀ {xs a b : List Char}, splitFirstAt sep xs = some (a, b) →
      xs = a ++ sep :: b ∧ sep ∉ a := by
  intro xs
  induction xs with
  | nil => intro a b h; simp [splitFirstAt] at h
  | cons c cs ih =>
    intro a b h
    by_cases hc : c = sep
    · simp only [splitFirstAt, if_pos hc, Option.some.injEq, Prod.mk.injEq] at h
      obtain ⟨ha, hb⟩ := h
      subst ha; subst hb; subst hc
      simp
    · simp only [splitFirstAt, if_neg hc] at h
      cases hsp : splitFirstAt sep cs with
      | none => rw [hsp] at h; simp at h
      | some p =>
        obtain ⟨a', b'⟩ := p
        rw [hsp] at h
        simp only [Option.some.injEq, Prod.mk.injEq] at h
        obtain ⟨ha, hb⟩ := h
        obtain ⟨hcs, hmem⟩ := ih hsp
        subst hb
        rw [← ha, hcs]
        refine ⟨rfl, ?_⟩
        simp only [List.mem_cons, not_or]
        exact ⟨fun h' => hc h'.symm, hmem⟩

theorem splitFirstAt_append (sep : Char) :
    ∀ (a : List Char), sep ∉ a → ∀ b, splitFirstAt sep (a ++ sep :: b) = some (a, b) := by
  intro a
  induction a with
  | nil => intro _ b; simp [splitFirstAt]
  | cons c cs ih =>
    intro h b
    simp only [List.mem_cons, not_or] at h
    obtain ⟨hc, hcs⟩ := h
    have hc' : ¬ c = sep := fun h' => hc h'.symm
    simp only [List.cons_append, splitFirstAt, if_neg hc', List.append_eq, ih hcs b]

theorem lastDotSplit_some :
    ∀ {xs d t : List Char}, lastDotSplit xs = some (d, t) → xs = d ++ '.' :: t := by
  intro xs
  induction xs with
  | nil => intro d t h; simp [lastDotSplit] at h
  | cons c cs ih =>
    intro d t h
    simp only [lastDotSplit] at h
    cases hsp : lastDotSplit cs with
    | none =>
      rw [hsp] at h
      by_cases hc : c = '.'
      · rw [if_pos hc] at h
        simp only [Option.some.injEq, Prod.mk.injEq] at h
        obtain ⟨hd, ht⟩ := h
        subst hd; subst ht; subst hc
        simp
      · rw [if_neg hc] at h; simp at h
    | some p =>
      obtain ⟨d', t'⟩ := p
      rw [hsp] at h
      simp only [Option.some.injEq, Prod.mk.injEq] at h
      obtain ⟨hd, ht⟩ := h
      subst ht
      rw [← hd, ih hsp]
      simp

theorem lastDotSplit_none_of_not_mem :
    ∀ {xs : List Char}, '.' ∉ xs → lastDotSplit xs = none := by
  intro xs
  induction xs with
  | nil => intro _; rfl
  | cons c cs ih =>
    intro h
    simp only [List.mem_cons, not_or] at h
    obtain ⟨hc, hcs⟩ := h
    simp only [lastDotSplit, ih hcs]
    rw [if_neg (fun hc' => hc hc'.symm)]

theorem lastDotSplit_append {t : List Char} (ht : '.' ∉ t) :
    ∀ d, lastDotSplit (d ++ '.' :: t) = some (d, t) := by
  intro d
  induction d with
  | nil =>
    simp [List.nil_append, lastDotSplit, lastDotSplit_none_of_not_mem ht]
  | cons c cs ih =>
    simp only [List.cons_append, lastDotSplit, List.append_eq, ih]

/-- A dot is not a letter, so a list of letters contains no dot. -/
theorem not_dot_mem_of_all_alpha {t : List Char} (h : t.all Char.isAlpha) :
    '.' ∉ t := by
  intro hmem
  have := List.all_eq_true.mp h '.' hmem
  simp [Char.isAlpha, Char.isUpper, Char.isLower] at this

/-- The source regex `^[a-zA-Z0-9._%+-]+@[a-zA-Z0-9.-]+\.[a-zA-Z]{2,}$`
matches exactly the strings of the shape
`local ++ "@" ++ domain ++ "." ++ tld` with a nonempty local part over
the local class, a nonempty domain over the domain class, and a final
label of at least two letters. -/
theorem isValidEmail_iff_decomp (s : String) :
    isValidEmail s = true ↔ ∃ l d t : List Char,
      s.toList = l ++ '@' :: (d ++ '.' :: t) ∧ l ≠ [] ∧ l.all isLocalChar ∧
      d ≠ [] ∧ d.all isDomainChar ∧ 2 ≤ t.length ∧ t.all Char.isAlpha := by
  constructor
  · intro h
    unfold isValidEmail at h
    cases hsp : splitFirstAt '@' s.toList with
    | none => rw [hsp] at h; simp [emailSplit] at h
    | some p =>
      obtain ⟨l, r⟩ := p
      rw [hsp] at h
      cases hdot : lastDotSplit r with
      | none => rw [emailSplit, hdot] at h; simp [emailDomainTail] at h
      | some q =>
        obtain ⟨d, t⟩ := q
        rw [emailSplit, hdot] at h
        simp only [emailLocalOK, emailDomainTail, Bool.and_eq_true, Bool.not_eq_true',
          decide_eq_true_eq, List.isEmpty_eq_false] at h
        obtain ⟨⟨hl, hlc⟩, ⟨⟨hd, hdc⟩, hlen⟩, hta⟩ := h
        refine ⟨l, d, t, ?_, hl, hlc, hd, hdc, hlen, hta⟩
        rw [(splitFirstAt_some hsp).1, lastDotSplit_some hdot]
  · rintro ⟨l, d, t, hs, hl, hlc, hd, hdc, hlen, hta⟩
    have hlat : '@' ∉ l := by
      intro hmem
      have := List.all_eq_true.mp hlc '@' hmem
      simp [isLocalChar, Char.isAlpha, Char.isUpper, Char.isLower, Char.isDigit] at this
    unfold isValidEmail
    rw [hs, splitFirstAt_append '@' l hlat, emailSplit,
      lastDotSplit_append (not_dot_mem_of_all_alpha hta)]
    simp only [emailLocalOK, emailDomainTail, Bool.and_eq_true, Bool.not_eq_true',
      decide_eq_true_eq, List.isEmpty_eq_false]
    exact ⟨⟨hl, hlc⟩, ⟨⟨hd, hdc⟩, hlen⟩, hta⟩

/-- Whether a single-row read result surfaces the no-rows condition as an
error. -/
def surfacesNoRows {α : Type} : Except SqlError α → Bool
  | .error .noRows => true
  | _ => false

/-! ## Claims -/

/-- C6: on a unit of work whose transaction handle was never acquired
(`tx` is `nil`), `Commit` and `Rollback` return success, leave the state
unchanged, and delegate nothing to a transaction. -/
theorem claim_C6_commit_rollback_noop_before_begin
    (uow : UnitOfWorkImpl) (txRes : Option String) (h : uow.tx = none) :
    uowCommit uow txRes = (none, uow, []) ∧
    uowRollback uow txRes = (none, uow, []) := by
  simp [uowCommit, uowRollback, h]

theorem claim_C6_witness :
    uowCommit newUnitOfWork none = (none, newUnitOfWork, []) ∧
    uowRollback newUnitOfWork none = (none, newUnitOfWork, []) :=
  claim_C6_commit_rollback_noop_before_begin newUnitOfWork none rfl

/-- C10: the unit of work never clears its handle: `Commit`/`Rollback`
leave `tx` stored (and exposed by `Tx()`), so a second `Commit` again
delegates to the same, already-finalized transaction instead of being a
no-op; and `Begin` overwrites a held handle while delegating neither a
commit nor a rollback. -/
theorem claim_C10_uow_never_clears_handle
    (uow : UnitOfWorkImpl) (hd : Nat) (txRes txRes2 : Option String)
    (h : uow.tx = some hd) (h2 : Nat) :
    (uowCommit uow txRes).2.1.tx = some hd ∧
    uowTx (uowCommit uow txRes).2.1 = some hd ∧
    (uowRollback uow txRes).2.1.tx = some hd ∧
    uowTx (uowRollback uow txRes).2.1 = some hd ∧
    uowCommit (uowCommit uow txRes).2.1 txRes2 =
      (txRes2, uow, [TxEvent.commit hd]) ∧
    uowRollback (uowCommit uow txRes).2.1 txRes2 =
      (txRes2, uow, [TxEvent.rollback hd]) ∧
    uowBegin uow h2 = (none, { tx := some h2 }, [TxEvent.beginTx h2]) := by
  simp [uowCommit, uowRollback, uowBegin, uowTx, h]

theorem claim_C10_witness :
    (uowCommit { tx := some 1 } none).2.1.tx = some 1 ∧
    uowCommit (uowCommit { tx := some 1 } none).2.1 none =
      (none, { tx := some 1 }, [TxEvent.commit 1]) :=
  ⟨(claim_C10_uow_never_clears_handle { tx := some 1 } 1 none none rfl 2).1,
   (claim_C10_uow_never_clears_handle { tx := some 1 } 1 none none rfl 2).2.2.2.2.1⟩

/-- C7: every single-row read that exists (`GetByID` and `GetByEmail` for
church members, `GetByID` for users) maps the no-rows condition to a nil
entity with nil error, propagates every other storage failure unchanged,
and never surfaces the no-rows condition as an error. -/
theorem claim_C7_single_row_reads (m : ChurchMember) (u : User) (msg : String)
    (resM : Except SqlError ChurchMember) (resU : Except SqlError User) :
    memberGetByIDResult (.error .noRows) = .ok none ∧
    memberGetByEmailResult (.error .noRows) = .ok none ∧
    userGetByIDResult (.error .noRows) = .ok none ∧
    memberGetByIDResult (.error (.other msg)) = .error (.other msg) ∧
    memberGetByEmailResult (.error (.other msg)) = .error (.other msg) ∧
    userGetByIDResult (.error (.other msg)) = .error (.other msg) ∧
    memberGetByIDResult (.ok m) = .ok (some m) ∧
    memberGetByEmailResult (.ok m) = .ok (some m) ∧
    userGetByIDResult (.ok u) = .ok (some u) ∧
    surfacesNoRows (memberGetByIDResult resM) = false ∧
    surfacesNoRows (memberGetByEmailResult resM) = false ∧
    surfacesNoRows (userGetByIDResult resU) = false := by
  refine ⟨rfl, rfl, rfl, rfl, rfl, rfl, rfl, rfl, rfl, ?_, ?_, ?_⟩
  · cases resM with
    | ok v => rfl
    | error e => cases e <;> rfl
  · cases resM with
    | ok v => rfl
    | error e => cases e <;> rfl
  · cases resU with
    | ok v => rfl
    | error e => cases e <;> rfl

/-- C4 counterexample: `UserService.DeleteUser` with the nonpositive id
`-1` is not rejected with a validation error; it succeeds and delegates
the delete to the repository. -/
theorem claim_C4_counterexample :
    deleteUser [] (-1) = (Except.ok (), [], [UserRepoOp.delete (-1)]) := rfl

/-- C4 (amended): `DeleteMember` requires a positive id (id ≤ 0 is
rejected with a validation error before any repository operation), while
`DeleteUser` performs no id check and delegates directly; neither
performs an existence precheck, and for ids matching no stored entity
the delete succeeds with the store unchanged (idempotent delete). -/
theorem claim_C4_amended_delete (stM : List ChurchMember) (stU : List User) (id : Int) :
    (id ≤ 0 → deleteMember stM id = (.error "invalid member id", stM, [])) ∧
    (0 < id → deleteMember stM id = (.ok (), repoDelete stM id, [.delete id])) ∧
    deleteUser stU id = (.ok (), userRepoDelete stU id, [.delete id]) ∧
    (0 < id → (∀ r ∈ stM, r.id ≠ id) →
      deleteMember stM id = (.ok (), stM, [.delete id])) ∧
    ((∀ r ∈ stU, r.id ≠ id) → deleteUser stU id = (.ok (), stU, [.delete id])) := by
  refine ⟨?_, ?_, rfl, ?_, ?_⟩
  · intro h; simp [deleteMember, h]
  · intro h; simp [deleteMember, not_le.2 h]
  · intro h hnone
    have hfil : repoDelete stM id = stM := by
      unfold repoDelete
      exact List.filter_eq_self.mpr (fun r hr => by simpa using hnone r hr)
    simp [deleteMember, not_le.2 h, hfil]
  · intro hnone
    have hfil : userRepoDelete stU id = stU := by
      unfold userRepoDelete
      exact List.filter_eq_self.mpr (fun r hr => by simpa using hnone r hr)
    simp [deleteUser, hfil]

theorem claim_C4_witness :
    deleteMember [] 0 = (Except.error "invalid member id", [], []) ∧
    deleteMember [] 3 = (Except.ok (), [], [MemberRepoOp.delete 3]) ∧
    deleteUser [] 3 = (Except.ok (), [], [UserRepoOp.delete 3]) :=
  ⟨(claim_C4_amended_delete [] [] 0).1 (by norm_num),
   (claim_C4_amended_delete [] [] 3).2.2.2.1 (by norm_num) (by simp),
   (claim_C4_amended_delete [] [] 3).2.2.1⟩

/-- C1 counterexample: `UserService.CreateUser` against a store already
holding a user with email `a@b.com` neither validates nor checks
`getByEmail`: it succeeds and writes a second row with the same email
(the only repository operation issued is the insert). -/
theorem claim_C1_counterexample :
    createUser [⟨1, "Bob", "a@b.com", 0⟩] 7 2 ⟨0, "Al", "a@b.com", 0⟩ =
      (Except.ok 2,
       [⟨1, "Bob", "a@b.com", 0⟩, ⟨2, "Al", "a@b.com", 7⟩],
       [UserRepoOp.create ⟨0, "Al", "a@b.com", 0⟩]) := rfl

/-- C1 (amended): `ChurchMemberService.CreateMember` runs validation
first (on failure no repository operation is issued), then queries
`getByEmail` before any write; when a member with the candidate's email
exists it returns a conflict error and performs no write.
`UserService.CreateUser` performs no validation and no uniqueness check:
it issues the repository insert directly. -/
theorem claim_C1_amended_create (st : List ChurchMember) (svcNow repoNow : Time)
    (newId : Int) (m : ChurchMember) (stU : List User) (uNow : Time) (uId : Int)
    (u : User) :
    (∀ e, validateMember m = some e →
      createMember st svcNow repoNow newId m = (.error e, st, [])) ∧
    (validateMember m = none → ∀ ex, repoGetByEmail st m.email = some ex →
      createMember st svcNow repoNow newId m =
        (.error "email already exists", st, [.getByEmail m.email])) ∧
    (validateMember m = none → repoGetByEmail st m.email = none →
      createMember st svcNow repoNow newId m =
        (.ok newId,
         st ++ [{ (if m.joinedAt = 0 then { m with joinedAt := svcNow } else m) with
                  id := newId, createdAt := repoNow, updatedAt := repoNow }],
         [.getByEmail m.email,
          .create (if m.joinedAt = 0 then { m with joinedAt := svcNow } else m)])) ∧
    createUser stU uNow uId u =
      (.ok uId, stU ++ [{ u with id := uId, createdAt := uNow }], [.create u]) := by
  refine ⟨?_, ?_, ?_, rfl⟩
  · intro e he; simp [createMember, he]
  · intro hv ex hex; simp [createMember, hv, hex]
  · intro hv hex; simp [createMember, repoCreate, hv, hex]

theorem claim_C1_witness :
    createMember [] 4 9 1
        ⟨0, "Al", "al@x.com", "", "", "", 0, 0, 0⟩ =
      (Except.ok 1,
       [⟨1, "Al", "al@x.com", "", "", "", 4, 9, 9⟩],
       [MemberRepoOp.getByEmail "al@x.com",
        MemberRepoOp.create ⟨0, "Al", "al@x.com", "", "", "", 4, 0, 0⟩]) ∧
    createMember [⟨1, "Al", "al@x.com", "", "", "", 4, 9, 9⟩] 4 9 2
        ⟨0, "Cy", "al@x.com", "", "", "", 0, 0, 0⟩ =
      (Except.error "email already exists",
       [⟨1, "Al", "al@x.com", "", "", "", 4, 9, 9⟩],
       [MemberRepoOp.getByEmail "al@x.com"]) ∧
    createMember [] 4 9 1 ⟨0, "A", "al@x.com", "", "", "", 0, 0, 0⟩ =
      (Except.error "name must be between 2 and 255 characters", [], []) := by
  refine ⟨?_, ?_, ?_⟩
  · have h := (claim_C1_amended_create [] 4 9 1
      ⟨0, "Al", "al@x.com", "", "", "", 0, 0, 0⟩ [] 0 0
      ⟨0, "", "", 0⟩).2.2.1 (by decide) (by decide)
    simpa using h
  · exact (claim_C1_amended_create [⟨1, "Al", "al@x.com", "", "", "", 4, 9, 9⟩] 4 9 2
      ⟨0, "Cy", "al@x.com", "", "", "", 0, 0, 0⟩ [] 0 0
      ⟨0, "", "", 0⟩).2.1 (by decide) ⟨1, "Al", "al@x.com", "", "", "", 4, 9, 9⟩ (by decide)
  · exact (claim_C1_amended_create [] 4 9 1
      ⟨0, "A", "al@x.com", "", "", "", 0, 0, 0⟩ [] 0 0
      ⟨0, "", "", 0⟩).1 "name must be between 2 and 255 characters" (by decide)

/-- C2: `validateMember` accepts a member iff the trimmed name is
non-empty of length 2–255, the trimmed email is non-empty and matches
the fixed pattern (a nonempty local part over `[a-zA-Z0-9._%+-]`, an
`@`, a nonempty domain over `[a-zA-Z0-9.-]`, a dot, and a final label
of at least two letters), the phone when non-empty is at most 20
characters, the address is at most 500 and the biography at most 5000
characters; on any violation `CreateMember` returns the validation
error before any repository operation. -/
theorem claim_C2_validate_member_iff (m : ChurchMember) (st : List ChurchMember)
    (svcNow repoNow : Time) (newId : Int) :
    (validateMember m = none ↔
      (goTrim m.name ≠ "" ∧
       2 ≤ goLen (goTrim m.name) ∧ goLen (goTrim m.name) ≤ 255 ∧
       goTrim m.email ≠ "" ∧
       (∃ l d t : List Char,
         (goTrim m.email).toList = l ++ '@' :: (d ++ '.' :: t) ∧
         l ≠ [] ∧ l.all isLocalChar ∧ d ≠ [] ∧ d.all isDomainChar ∧
         2 ≤ t.length ∧ t.all Char.isAlpha) ∧
       (m.phone ≠ "" → goLen m.phone ≤ 20) ∧
       goLen m.address ≤ 500 ∧ goLen m.biography ≤ 5000)) ∧
    (∀ e, validateMember m = some e →
      createMember st svcNow repoNow newId m = (.error e, st, [])) := by
  constructor
  · have key : validateMember m = none ↔
        (¬ goTrim m.name = "" ∧
         ¬ (goLen (goTrim m.name) < 2 ∨ goLen (goTrim m.name) > 255) ∧
         ¬ goTrim m.email = "" ∧
         ¬ (isValidEmail (goTrim m.email) = false) ∧
         ¬ (m.phone ≠ "" ∧ goLen m.phone > 20) ∧
         ¬ (goLen m.address > 500) ∧ ¬ (goLen m.biography > 5000)) := by
      unfold validateMember
      split_ifs <;> simp_all
    rw [key]
    constructor
    · rintro ⟨hn, hl, he, hv, hp, ha, hb⟩
      push_neg at hl
      refine ⟨hn, by omega, by omega, he, ?_, ?_, by omega, by omega⟩
      · rw [← isValidEmail_iff_decomp]
        cases hb2 : isValidEmail (goTrim m.email) with
        | false => exact absurd hb2 hv
        | true => rfl
      · intro hne
        by_contra hlen
        exact hp ⟨hne, by omega⟩
    · rintro ⟨hn, hl2, hl255, he, hdecomp, hp, ha, hb⟩
      have hv : isValidEmail (goTrim m.email) = true :=
        (isValidEmail_iff_decomp _).mpr hdecomp
      refine ⟨hn, by omega, he, by simp [hv], ?_, by omega, by omega⟩
      rintro ⟨hne, hgt⟩
      exact absurd (hp hne) (by omega)
  · intro e he
    simp [createMember, he]

theorem claim_C2_witness :
    validateMember ⟨0, " Al ", "al@x.com", "", "", "", 0, 0, 0⟩ = none ∧
    createMember [] 4 9 1 ⟨0, "Al", "", "", "", "", 0, 0, 0⟩ =
      (Except.error "email is required", [], []) := by
  constructor
  · exact (claim_C2_validate_member_iff ⟨0, " Al ", "al@x.com", "", "", "", 0, 0, 0⟩
      [] 0 0 1).1.mpr
      (by
        refine ⟨by decide, by decide, by decide, by decide,
          ⟨['a', 'l'], ['x'], ['c', 'o', 'm'], ?_, by decide, by decide, by decide,
            by decide, by decide, by decide⟩, by decide, by decide, by decide⟩
        decide)
  · exact (claim_C2_validate_member_iff ⟨0, "Al", "", "", "", "", 0, 0, 0⟩
      [] 4 9 1).2 "email is required" (by decide)

/-- C3: for `UpdateMember` with a positive id and valid fields: a
missing id yields a not-found error with no write; the `getByEmail`
uniqueness lookup is issued iff the submitted email differs from the
stored member's email, and only against the new email; a taken new
email yields a conflict error with no write. -/
theorem claim_C3_update_member (st : List ChurchMember) (now : Time)
    (m : ChurchMember) (hid : 0 < m.id) (hval : validateMember m = none) :
    (repoGetByID st m.id = none →
      updateMember st now m = (.error "member not found", st, [.getByID m.id])) ∧
    (∀ ex, repoGetByID st m.id = some ex → m.email = ex.email →
      updateMember st now m =
        (.ok (), repoUpdate st now m, [.getByID m.id, .update m])) ∧
    (∀ ex, repoGetByID st m.id = some ex → m.email ≠ ex.email →
      (repoGetByEmail st m.email = none →
        updateMember st now m =
          (.ok (), repoUpdate st now m,
           [.getByID m.id, .getByEmail m.email, .update m])) ∧
      (∀ other, repoGetByEmail st m.email = some other →
        updateMember st now m =
          (.error "email already exists", st,
           [.getByID m.id, .getByEmail m.email]))) := by
  have hle : ¬ m.id ≤ 0 := not_le.2 hid
  refine ⟨?_, ?_, ?_⟩
  · intro hnone
    simp [updateMember, hle, hval, hnone]
  · intro ex hex heq
    simp [updateMember, hle, hval, hex, heq]
  · intro ex hex hne
    constructor
    · intro hmail
      simp [updateMember, hle, hval, hex, hne, hmail]
    · intro other hother
      simp [updateMember, hle, hval, hex, hne, hother]

theorem claim_C3_witness :
    updateMember [] 9 ⟨1, "Al", "al@x.com", "", "", "", 4, 2, 2⟩ =
      (Except.error "member not found", [], [MemberRepoOp.getByID 1]) ∧
    updateMember [⟨1, "Bo", "al@x.com", "", "", "", 4, 2, 2⟩] 9
        ⟨1, "Al", "al@x.com", "", "", "", 4, 2, 2⟩ =
      (Except.ok (), [⟨1, "Al", "al@x.com", "", "", "", 4, 2, 9⟩],
       [MemberRepoOp.getByID 1, MemberRepoOp.update ⟨1, "Al", "al@x.com", "", "", "", 4, 2, 2⟩]) ∧
    updateMember [⟨1, "Bo", "al@x.com", "", "", "", 4, 2, 2⟩,
                  ⟨2, "Cy", "cy@x.com", "", "", "", 4, 2, 2⟩] 9
        ⟨1, "Bo", "cy@x.com", "", "", "", 4, 2, 2⟩ =
      (Except.error "email already exists",
       [⟨1, "Bo", "al@x.com", "", "", "", 4, 2, 2⟩,
        ⟨2, "Cy", "cy@x.com", "", "", "", 4, 2, 2⟩],
       [MemberRepoOp.getByID 1, MemberRepoOp.getByEmail "cy@x.com"]) := by
  refine ⟨?_, ?_, ?_⟩
  · exact (claim_C3_update_member [] 9 ⟨1, "Al", "al@x.com", "", "", "", 4, 2, 2⟩
      (by norm_num) (by decide)).1 (by decide)
  · have h := (claim_C3_update_member [⟨1, "Bo", "al@x.com", "", "", "", 4, 2, 2⟩] 9
      ⟨1, "Al", "al@x.com", "", "", "", 4, 2, 2⟩ (by norm_num) (by decide)).2.1
      ⟨1, "Bo", "al@x.com", "", "", "", 4, 2, 2⟩ (by decide) (by decide)
    simpa [repoUpdate] using h
  · exact ((claim_C3_update_member
      [⟨1, "Bo", "al@x.com", "", "", "", 4, 2, 2⟩,
       ⟨2, "Cy", "cy@x.com", "", "", "", 4, 2, 2⟩] 9
      ⟨1, "Bo", "cy@x.com", "", "", "", 4, 2, 2⟩ (by norm_num) (by decide)).2.2
      ⟨1, "Bo", "al@x.com", "", "", "", 4, 2, 2⟩ (by decide) (by decide)).2
      ⟨2, "Cy", "cy@x.com", "", "", "", 4, 2, 2⟩ (by decide)

/-- C8: a valid `CreateMember` whose email is free persists, after the
`getByEmail` check, a row whose `joinedAt` is the service's current
time when the caller supplied the zero timestamp and the caller's value
otherwise, and whose `createdAt`/`updatedAt` are set by the repository
to its current time regardless of caller input. -/
theorem claim_C8_create_member_timestamps (st : List ChurchMember)
    (svcNow repoNow : Time) (newId : Int) (m : ChurchMember)
    (hval : validateMember m = none) (hmail : repoGetByEmail st m.email = none) :
    createMember st svcNow repoNow newId m =
      (.ok newId,
       st ++ [{ m with
                id := newId,
                joinedAt := if m.joinedAt = 0 then svcNow else m.joinedAt,
                createdAt := repoNow, updatedAt := repoNow }],
       [.getByEmail m.email,
        .create (if m.joinedAt = 0 then { m with joinedAt := svcNow } else m)]) ∧
    (m.joinedAt = 0 →
      ({ m with
         id := newId,
         joinedAt := if m.joinedAt = 0 then svcNow else m.joinedAt,
         createdAt := repoNow, updatedAt := repoNow } : ChurchMember).joinedAt = svcNow) ∧
    (m.joinedAt ≠ 0 →
      ({ m with
         id := newId,
         joinedAt := if m.joinedAt = 0 then svcNow else m.joinedAt,
         createdAt := repoNow, updatedAt := repoNow } : ChurchMember).joinedAt = m.joinedAt) := by
  refine ⟨?_, ?_, ?_⟩
  · by_cases hz : m.joinedAt = 0 <;>
      simp [createMember, repoCreate, hval, hmail, hz]
  · intro hz; simp [hz]
  · intro hz; simp [hz]

theorem claim_C8_witness :
    createMember [] 4 9 1 ⟨0, "Al", "al@x.com", "", "", "", 0, 3, 3⟩ =
      (Except.ok 1, [⟨1, "Al", "al@x.com", "", "", "", 4, 9, 9⟩],
       [MemberRepoOp.getByEmail "al@x.com",
        MemberRepoOp.create ⟨0, "Al", "al@x.com", "", "", "", 4, 3, 3⟩]) ∧
    createMember [] 4 9 1 ⟨0, "Al", "al@x.com", "", "", "", 6, 3, 3⟩ =
      (Except.ok 1, [⟨1, "Al", "al@x.com", "", "", "", 6, 9, 9⟩],
       [MemberRepoOp.getByEmail "al@x.com",
        MemberRepoOp.create ⟨0, "Al", "al@x.com", "", "", "", 6, 3, 3⟩]) := by
  constructor
  · have h := (claim_C8_create_member_timestamps [] 4 9 1
      ⟨0, "Al", "al@x.com", "", "", "", 0, 3, 3⟩ (by decide) (by decide)).1
    simpa using h
  · have h := (claim_C8_create_member_timestamps [] 4 9 1
      ⟨0, "Al", "al@x.com", "", "", "", 6, 3, 3⟩ (by decide) (by decide)).1
    simpa using h

/-- C5: the joined-date range query rejects `start` after `end` with a
validation error and no repository operation (equal bounds are
accepted); otherwise it issues exactly the range query and returns a
permutation of the stored members whose `joinedAt` lies in the
inclusive range, sorted by `joinedAt` descending. -/
theorem claim_C5_list_by_joined_range (st : List ChurchMember) (s e : Time) :
    (e < s → listMembersByJoinedDate st s e =
      (.error "start date must be before end date", [])) ∧
    (s ≤ e →
      listMembersByJoinedDate st s e =
        (.ok (repoListByRange st s e), [.listByRange s e]) ∧
      (∀ m : ChurchMember,
        m ∈ repoListByRange st s e ↔ m ∈ st ∧ s ≤ m.joinedAt ∧ m.joinedAt ≤ e) ∧
      (repoListByRange st s e).Perm
        (st.filter (fun r => s ≤ r.joinedAt && r.joinedAt ≤ e)) ∧
      (repoListByRange st s e).Sorted joinedDesc) := by
  constructor
  · intro h
    simp [listMembersByJoinedDate, h]
  · intro h
    refine ⟨by simp [listMembersByJoinedDate, not_lt.2 h], ?_, ?_, ?_⟩
    · intro m
      unfold repoListByRange
      rw [List.mem_insertionSort, List.mem_filter]
      simp
    · exact List.perm_insertionSort _ _
    · exact List.sorted_insertionSort _ _

theorem claim_C5_witness :
    listMembersByJoinedDate
        [⟨1, "Al", "al@x.com", "", "", "", 3, 0, 0⟩,
         ⟨2, "Bo", "bo@x.com", "", "", "", 5, 0, 0⟩,
         ⟨3, "Cy", "cy@x.com", "", "", "", 9, 0, 0⟩] 3 5 =
      (Except.ok
        [⟨2, "Bo", "bo@x.com", "", "", "", 5, 0, 0⟩,
         ⟨1, "Al", "al@x.com", "", "", "", 3, 0, 0⟩],
       [MemberRepoOp.listByRange 3 5]) ∧
    listMembersByJoinedDate [] 5 5 =
      (Except.ok [], [MemberRepoOp.listByRange 5 5]) ∧
    listMembersByJoinedDate [] 5 3 =
      (Except.error "start date must be before end date", []) := by
  refine ⟨?_, ?_, ?_⟩
  · have h := ((claim_C5_list_by_joined_range
      [⟨1, "Al", "al@x.com", "", "", "", 3, 0, 0⟩,
       ⟨2, "Bo", "bo@x.com", "", "", "", 5, 0, 0⟩,
       ⟨3, "Cy", "cy@x.com", "", "", "", 9, 0, 0⟩] 3 5).2 (by norm_num)).1
    rw [h]
    rfl
  · have h := ((claim_C5_list_by_joined_range [] 5 5).2 (le_refl 5)).1
    rw [h]
    rfl
  · exact (claim_C5_list_by_joined_range [] 5 3).1 (by norm_num)

/-- C9: repository updates write only the mutable fields.  A church
member update sets name, email, phone, address, biography and refreshes
`updatedAt` on the row with the matching id, leaving its id, `createdAt`
and `joinedAt` unchanged and every other row untouched; a user update
sets name and email, leaving id and `createdAt` unchanged and every
other row untouched. -/
theorem claim_C9_update_frame (st : List ChurchMember) (now : Time)
    (m : ChurchMember) (stU : List User) (u : User) :
    (repoUpdate st now m).length = st.length ∧
    (∀ i (h : i < st.length) (h2 : i < (repoUpdate st now m).length),
      ((st.get ⟨i, h⟩).id ≠ m.id →
        (repoUpdate st now m).get ⟨i, h2⟩ = st.get ⟨i, h⟩) ∧
      ((st.get ⟨i, h⟩).id = m.id →
        ((repoUpdate st now m).get ⟨i, h2⟩).name = m.name ∧
        ((repoUpdate st now m).get ⟨i, h2⟩).email = m.email ∧
        ((repoUpdate st now m).get ⟨i, h2⟩).phone = m.phone ∧
        ((repoUpdate st now m).get ⟨i, h2⟩).address = m.address ∧
        ((repoUpdate st now m).get ⟨i, h2⟩).biography = m.biography ∧
        ((repoUpdate st now m).get ⟨i, h2⟩).updatedAt = now ∧
        ((repoUpdate st now m).get ⟨i, h2⟩).id = (st.get ⟨i, h⟩).id ∧
        ((repoUpdate st now m).get ⟨i, h2⟩).createdAt = (st.get ⟨i, h⟩).createdAt ∧
        ((repoUpdate st now m).get ⟨i, h2⟩).joinedAt = (st.get ⟨i, h⟩).joinedAt)) ∧
    (userRepoUpdate stU u).length = stU.length ∧
    (∀ i (h : i < stU.length) (h2 : i < (userRepoUpdate stU u).length),
      ((stU.get ⟨i, h⟩).id ≠ u.id →
        (userRepoUpdate stU u).get ⟨i, h2⟩ = stU.get ⟨i, h⟩) ∧
      ((stU.get ⟨i, h⟩).id = u.id →
        ((userRepoUpdate stU u).get ⟨i, h2⟩).name = u.name ∧
        ((userRepoUpdate stU u).get ⟨i, h2⟩).email = u.email ∧
        ((userRepoUpdate stU u).get ⟨i, h2⟩).id = (stU.get ⟨i, h⟩).id ∧
        ((userRepoUpdate stU u).get ⟨i, h2⟩).createdAt = (stU.get ⟨i, h⟩).createdAt)) := by
  refine ⟨by simp [repoUpdate], ?_, by simp [userRepoUpdate], ?_⟩
  · intro i h h2
    constructor
    · intro hne
      simp only [repoUpdate, List.get_eq_getElem, List.getElem_map] at *
      rw [if_neg hne]
    · intro heq
      simp only [repoUpdate, List.get_eq_getElem, List.getElem_map] at *
      rw [if_pos heq]
      simp
  · intro i h h2
    constructor
    · intro hne
      simp only [userRepoUpdate, List.get_eq_getElem, List.getElem_map] at *
      rw [if_neg hne]
    · intro heq
      simp only [userRepoUpdate, List.get_eq_getElem, List.getElem_map] at *
      rw [if_pos heq]
      simp

theorem claim_C9_witness :
    (repoUpdate [⟨1, "Bo", "al@x.com", "p", "a", "b", 4, 2, 2⟩] 9
        ⟨1, "Al", "ne@x.com", "q", "c", "d", 7, 8, 8⟩).get
        ⟨0, by simp [repoUpdate]⟩ =
      ⟨1, "Al", "ne@x.com", "q", "c", "d", 4, 2, 9⟩ ∧
    (userRepoUpdate [⟨1, "Bo", "al@x.com", 2⟩] ⟨3, "Al", "ne@x.com", 8⟩).get
        ⟨0, by simp [userRepoUpdate]⟩ =
      ⟨1, "Bo", "al@x.com", 2⟩ := by
  constructor
  · have h := ((claim_C9_update_frame [⟨1, "Bo", "al@x.com", "p", "a", "b", 4, 2, 2⟩] 9
      ⟨1, "Al", "ne@x.com", "q", "c", "d", 7, 8, 8⟩ [] ⟨0, "", "", 0⟩).2.1 0
      (by norm_num) (by simp [repoUpdate])).2 (by decide)
    obtain ⟨h1, h2, h3, h4, h5, h6, h7, h8, h9⟩ := h
    have : ((repoUpdate [⟨1, "Bo", "al@x.com", "p", "a", "b", 4, 2, 2⟩] 9
        ⟨1, "Al", "ne@x.com", "q", "c", "d", 7, 8, 8⟩).get ⟨0, by simp [repoUpdate]⟩ :
        ChurchMember) = ⟨1, "Al", "ne@x.com", "q", "c", "d", 4, 2, 9⟩ := by
      apply ChurchMember.ext <;> simp_all
    exact this
  · exact ((claim_C9_update_frame [] 0 ⟨0, "", "", "", "", "", 0, 0, 0⟩
      [⟨1, "Bo", "al@x.com", 2⟩] ⟨3, "Al", "ne@x.com", 8⟩).2.2.2 0
      (by norm_num) (by simp [userRepoUpdate])).1 (by decide)

end LearnGolang
